import Mathlib

/-!
Verification of the audio pipeline and resilient remote invocation of the
voice-translation repository (`services/geminiService.ts`).

The TypeScript source is shallowly embedded below.  Floating-point sample
values, clock times and delays are modelled as rationals; JavaScript's Int16
coercion (truncate toward zero, then wrap modulo 2^16) is modelled explicitly;
byte sequences are lists of naturals; fallible operations return `Except` or
an explicit error component.
-/

/-- Truncation toward zero of a rational, as JavaScript's ToInteger step does
when a float is stored into an `Int16Array` or passed to `DataView.setInt16`. -/
def truncQ (q : ℚ) : ℤ := if 0 ≤ q then ⌊q⌋ else -⌊-q⌋

/-- Wrap an integer into the signed 16-bit range, as JavaScript's ToInt16 does
(reduce modulo 2^16, then interpret as signed). -/
def wrap16 (i : ℤ) : ℤ :=
  let m := i % 65536
  if m < 32768 then m else m - 65536

/-- JavaScript ToInt16 applied to a (rational-modelled) float: truncate toward
zero, then wrap modulo 2^16 into the signed range. -/
def toInt16 (q : ℚ) : ℤ := wrap16 (truncQ q)

/-- The two little-endian bytes of a signed 16-bit value, as they appear when
an `Int16Array` buffer is viewed as a `Uint8Array` (little-endian platform) or
written by `DataView.setInt16(·, ·, true)`. -/
def int16ToBytesLE (v : ℤ) : List ℕ :=
  let u := (v % 65536).toNat
  [u % 256, u / 256]

/-- Read two little-endian bytes as a signed 16-bit value, as an `Int16Array`
element is read. -/
def readInt16LE (lo hi : ℕ) : ℤ :=
  let n := lo + 256 * hi
  if n < 32768 then (n : ℤ) else (n : ℤ) - 65536

/-- View a byte sequence as an `Int16Array`: consecutive little-endian pairs.
(The source only reaches this with an even number of bytes; a trailing odd
byte would have been rejected by the `Int16Array` constructor.) -/
def bytesToInt16s : List ℕ → List ℤ
  | [] => []
  | [_] => []
  | lo :: hi :: rest => readInt16LE lo hi :: bytesToInt16s rest

/-- `floatTo16BitPCM` (services/geminiService.ts:427-432): clamp each sample to
[-1, 1], scale by 0x8000 when negative and 0x7FFF otherwise, and write the
result as a signed 16-bit little-endian value, two bytes per sample. -/
def floatTo16BitPCM : List ℚ → List ℕ
  | [] => []
  | x :: rest =>
    let s := max (-1 : ℚ) (min 1 x)
    int16ToBytesLE (toInt16 (if s < 0 then s * 32768 else s * 32767)) ++ floatTo16BitPCM rest

/-- The `Int16Array` filled by `createPcmBlob` (services/geminiService.ts:75-85):
`int16[i] = data[i] * 32768` — no clamping; the store applies JS ToInt16. -/
def createPcmBlobInt16 (data : List ℚ) : List ℤ :=
  data.map fun x => toInt16 (x * 32768)

/-- The raw bytes of the blob built by `createPcmBlob`: the `Int16Array` buffer
viewed as bytes (little-endian), before base64 transport encoding. -/
def createPcmBlobBytes (data : List ℚ) : List ℕ :=
  (createPcmBlobInt16 data).flatMap int16ToBytesLE

/-- The per-sample encoding that the specification describes for the
float-to-16-bit-PCM conversion: clamp to [-1, 1], then scale the clamped value
by 0x7FFF when non-negative and by 0x8000 when negative (fractional results
truncate toward zero, the documented deterministic rounding). -/
def clampScaleSpec (x : ℚ) : ℤ :=
  let s := max (-1 : ℚ) (min 1 x)
  if 0 ≤ s then truncQ (s * 32767) else truncQ (s * 32768)

/-- The byte sequence the specification describes: each sample clamped, scaled,
and written little-endian as a signed 16-bit value, 2 bytes per sample. -/
def pcmEncodeSpec (xs : List ℚ) : List ℕ :=
  xs.flatMap fun x => int16ToBytesLE (clampScaleSpec x)

/-- Failures of `decodeAudioData`: `malformedLength` is the `RangeError` the
`Int16Array` constructor raises on an odd byte count (the spec's
`MalformedAudioError`); `zeroFrames` is the `NotSupportedError` that
`AudioContext.createBuffer` raises when the (ToUint32-truncated) frame count
is zero; `invalidBase64` is the `InvalidCharacterError` of `atob`. -/
inductive AudioError where
  | malformedLength
  | zeroFrames
  | invalidBase64
deriving DecidableEq, Repr

/-- The decoded audio buffer: per-channel sample lists plus the sample rate. -/
structure AudioBufferM where
  sampleRate : ℕ
  channels : List (List ℚ)
deriving DecidableEq, Repr

/-- `buffer.getChannelData c`. -/
def getChannelData (b : AudioBufferM) (c : ℕ) : List ℚ := b.channels.getD c []

/-- The buffer's frame count (all channels are created with the same length). -/
def frameCountB (b : AudioBufferM) : ℕ := (b.channels.getD 0 []).length

/-- `buffer.duration = length / sampleRate`. -/
def durationB (b : AudioBufferM) : ℚ := (frameCountB b : ℚ) / (b.sampleRate : ℚ)

/-- `decodeAudioData` (services/geminiService.ts:51-68).  `new
Int16Array(data.buffer)` raises on an odd byte count.  `frameCount =
dataInt16.length / numChannels` is JS real division; `ctx.createBuffer`
converts it by ToUint32 (truncation toward zero) and raises when the result is
zero.  The fill loop `channelData[i] = dataInt16[i*numChannels+channel]/32768`
runs `i` below the fractional frame count, but stores beyond the created
buffer's length are silently dropped by the `Float32Array`, so exactly
`⌊dataInt16.length / numChannels⌋` frames per channel survive (all reads
in that range are in bounds, so the `getD` default is never used). -/
def decodeAudioData (data : List ℕ) (sampleRate : ℕ) (numChannels : ℕ) :
    Except AudioError AudioBufferM :=
  if data.length % 2 ≠ 0 then .error .malformedLength
  else
    let dataInt16 := bytesToInt16s data
    let frameCount := dataInt16.length / numChannels
    if frameCount = 0 then .error .zeroFrames
    else .ok
      { sampleRate := sampleRate
        channels := (List.range numChannels).map fun channel =>
          (List.range frameCount).map fun i =>
            ((dataInt16.getD (i * numChannels + channel) 0 : ℤ) : ℚ) / 32768 }

/-- Decidable form of the round-trip law of the specification, instantiated
the way the claim instantiates it: the capture-path PCM encode
(`createPcmBlob`'s float-to-int16 conversion) followed by the PCM decode
(`decodeAudioData`'s byte-to-float conversion), mono, agreeing with the input
within one quantization step (1/32768) at every sample position. -/
def roundTripWithinQuantum (x : List ℚ) : Bool :=
  match decodeAudioData (createPcmBlobBytes x) 24000 1 with
  | .error _ => false
  | .ok b =>
    let y := b.channels.getD 0 []
    decide (y.length = x.length) &&
      (List.range x.length).all fun i => decide (|x.getD i 0 - y.getD i 0| ≤ 1 / 32768)

/-- The two little-endian bytes of an unsigned 16-bit header field
(`DataView.setUint16(·, ·, true)`, which wraps modulo 2^16). -/
def u16le (n : ℕ) : List ℕ := [n % 256, n / 256 % 256]

/-- The four little-endian bytes of an unsigned 32-bit header field
(`DataView.setUint32(·, ·, true)`, which wraps modulo 2^32). -/
def u32le (n : ℕ) : List ℕ := [n % 256, n / 256 % 256, n / 65536 % 256, n / 16777216 % 256]

/-- Little-endian unsigned 16-bit read at a byte offset. -/
def readU16LE (l : List ℕ) (off : ℕ) : ℕ :=
  match l.drop off with
  | a :: b :: _ => a + 256 * b
  | _ => 0

/-- Little-endian unsigned 32-bit read at a byte offset. -/
def readU32LE (l : List ℕ) (off : ℕ) : ℕ :=
  match l.drop off with
  | a :: b :: c :: d :: _ => a + 256 * b + 65536 * c + 16777216 * d
  | _ => 0

/-- `encodeWAV` (services/geminiService.ts:439-479): the 44-byte RIFF/WAVE
header followed by the 16-bit PCM of channel 0 (`getChannelData(0)`), in the
exact field order of the source (`RIFF`, file length, `WAVE`, `fmt `, chunk
length 16, format 1, channel count, sample rate, byte rate, block align, bits
per sample, `data`, data length, samples). -/
def encodeWAV (b : AudioBufferM) : List ℕ :=
  let samples := b.channels.getD 0 []
  let dataLength := samples.length * 2
  [82, 73, 70, 70]
    ++ u32le (36 + dataLength)
    ++ [87, 65, 86, 69, 102, 109, 116, 32]
    ++ u32le 16
    ++ u16le 1
    ++ u16le b.channels.length
    ++ u32le b.sampleRate
    ++ u32le (b.sampleRate * b.channels.length * 2)
    ++ u16le (b.channels.length * 2)
    ++ u16le 16
    ++ [100, 97, 116, 97]
    ++ u32le dataLength
    ++ floatTo16BitPCM samples

/-- ASCII whitespace removed by forgiving-base64 before decoding (`atob`). -/
def isB64Space (c : Char) : Bool :=
  c == ' ' || c == '\t' || c == '\n' || c == '\r' || c == Char.ofNat 12

/-- Value of one base64 alphabet character; `none` for anything else
(including a non-trailing `=`), which makes `atob` raise. -/
def b64Val (c : Char) : Option ℕ :=
  if 'A' ≤ c ∧ c ≤ 'Z' then some (c.toNat - 65)
  else if 'a' ≤ c ∧ c ≤ 'z' then some (c.toNat - 97)
  else if '0' ≤ c ∧ c ≤ '9' then some (c.toNat - 48)
  else if c = '+' then some 62
  else if c = '/' then some 63
  else none

/-- Turn 6-bit groups into bytes: each full group of four yields three bytes,
a trailing pair yields one byte, a trailing triple yields two. -/
def b64Chunks : List ℕ → List ℕ
  | a :: b :: c :: d :: rest =>
    (a * 4 + b / 16) :: ((b % 16) * 16 + c / 4) :: ((c % 4) * 64 + d) :: b64Chunks rest
  | [a, b] => [a * 4 + b / 16]
  | [a, b, c] => [a * 4 + b / 16, (b % 16) * 16 + c / 4]
  | _ => []

/-- Forgiving-base64 padding removal: when the length is a multiple of four,
up to two trailing `=` are dropped. -/
def stripPad (cs : List Char) : List Char :=
  if cs.length % 4 = 0 then
    match cs.reverse with
    | '=' :: '=' :: rest => rest.reverse
    | '=' :: rest => rest.reverse
    | _ => cs
  else cs

/-- The browser's `atob` composed with the byte extraction of `decode`
(services/geminiService.ts:19-27): forgiving base64 (strip ASCII whitespace,
drop permitted padding, reject a remainder-1 length or any character outside
the alphabet), yielding the decoded bytes. -/
def atob (s : String) : Option (List ℕ) :=
  let cs := stripPad (s.data.filter fun c => !(isB64Space c))
  if cs.length % 4 = 1 then none
  else (cs.mapM b64Val).map b64Chunks

/-- The constant `TTS_AUDIO_SAMPLE_RATE` (constants.ts:31). -/
def TTS_AUDIO_SAMPLE_RATE : ℕ := 24000

/-- Decoding one playback chunk as `playAudio` does: base64-decode the string,
then `decodeAudioData` at the TTS sample rate, mono. -/
def decodePlayChunk (s : String) : Except AudioError AudioBufferM :=
  match atob s with
  | none => .error .invalidBase64
  | some bytes => decodeAudioData bytes TTS_AUDIO_SAMPLE_RATE 1

/-- The playback scheduler state: the `nextStartTimeRef` cursor and the chunks
scheduled so far, in call order, each recorded as (start time, duration).
The scheduled list stands for the `audioSources` set of
`AudioBufferSourceNode`s together with the playback interval each was
started on. -/
structure PlayState where
  nextStartTime : ℚ
  scheduled : List (ℚ × ℚ)
deriving DecidableEq, Repr

/-- `playAudio` (services/geminiService.ts:214-250).  An empty audio string
returns at once.  Otherwise the cursor is first clamped to
`max(nextStartTime, audioContext.currentTime)`; then the chunk is decoded —
a decode failure is re-thrown (second component `some e`) with the clamp
already performed; on success the source is started at the clamped cursor,
the cursor advances by the buffer's duration, and the source joins the set. -/
def playAudio (base64Audio : String) (now : ℚ) (st : PlayState) :
    PlayState × Option AudioError :=
  if base64Audio = "" then (st, none)
  else
    let st1 : PlayState := { st with nextStartTime := max st.nextStartTime now }
    match decodePlayChunk base64Audio with
    | .error e => (st1, some e)
    | .ok buf =>
      ({ nextStartTime := st1.nextStartTime + durationB buf
         scheduled := st1.scheduled ++ [(st1.nextStartTime, durationB buf)] }, none)

/-- A sequence of `playAudio` calls, each given as (audio string, device clock
at the call), folded over the scheduler state. -/
def playSeq (calls : List (String × ℚ)) (st : PlayState) : PlayState :=
  calls.foldl (fun st c => (playAudio c.1 c.2 st).1) st

/-- The duration a chunk string decodes to (0 when it does not decode). -/
def durationOf (s : String) : ℚ :=
  match decodePlayChunk s with
  | .ok b => durationB b
  | .error _ => 0

/-- Sum of the decoded durations of a call sequence. -/
def totalDuration (calls : List (String × ℚ)) : ℚ :=
  (calls.map fun c => durationOf c.1).sum

/-- The run condition of the back-to-back scheduling law: every call carries a
non-empty chunk that decodes successfully, delivered while the device clock
has not advanced past the cursor. -/
def okRun : List (String × ℚ) → PlayState → Bool
  | [], _ => true
  | (s, now) :: rest, st =>
    !(s == "") && decide (now ≤ st.nextStartTime) &&
      (playAudio s now st).2.isNone && okRun rest (playAudio s now st).1

/-- Scheduler invariant: the recorded chunks are in start order with each
chunk's start at or after the previous chunk's end (so no two playback
intervals overlap), durations are non-negative, and every chunk ends at or
before the cursor. -/
def schedInv (st : PlayState) : Prop :=
  List.Pairwise (fun p q : ℚ × ℚ => p.1 + p.2 ≤ q.1) st.scheduled ∧
    ∀ p ∈ st.scheduled, 0 ≤ p.2 ∧ p.1 + p.2 ≤ st.nextStartTime

/-- One entry of a caught error's `details` array.  `typeUrl` models the
`@type` field.  `retryDelaySec` models the `retryDelay` field through the
source's own parse `retryDelay.match(/(\d+)s/)`: the extracted whole-second
count when the field is present and matches, `none` when the field is absent,
empty (falsy) or unparseable. -/
structure RetryDetail where
  typeUrl : String
  retryDelaySec : Option ℕ
deriving DecidableEq, Repr

/-- The open error shape the retry classifier inspects: whether a `code` field
exists (`'code' in error`), its value, the optional `status` string, the
message, and the optional structured `details` list. -/
structure JsError where
  hasCode : Bool
  code : ℤ
  status : Option String
  message : String
  details : Option (List RetryDetail)
deriving DecidableEq, Repr

/-- `hay` starts with `needle`. -/
def startsWithB : List Char → List Char → Bool
  | [], _ => true
  | _ :: _, [] => false
  | a :: as, b :: bs => a == b && startsWithB as bs

/-- `needle` occurs contiguously somewhere inside `hay`. -/
def hasSubB (needle : List Char) : List Char → Bool
  | [] => startsWithB needle []
  | b :: bs => startsWithB needle (b :: bs) || hasSubB needle bs

/-- `msg.includes marker` (`String.prototype.includes`). -/
def messageIncludes (msg marker : String) : Bool :=
  hasSubB marker.data msg.data

/-- The retryable-error classification of `retry`
(services/geminiService.ts:116-120): an object with a `code` field equal to
503 or 429 or with `status === 'RESOURCE_EXHAUSTED'`, or a message containing
one of the two transient markers. -/
def isRetryableError (e : JsError) : Bool :=
  (e.hasCode && (e.code == 503 || e.code == 429 ||
      e.status == some "RESOURCE_EXHAUSTED")) ||
    messageIncludes e.message "The model is overloaded" ||
    messageIncludes e.message "TTS API returned success but no audio data found"

/-- `customRetryDelay` extraction (services/geminiService.ts:133-144): find the
first `RetryInfo` detail; its parsed whole-second delay times 1000, else 0. -/
def customRetryDelayMs (e : JsError) : ℕ :=
  match e.details with
  | none => 0
  | some ds =>
    match ds.find? fun d => d.typeUrl = "type.googleapis.com/google.rpc.RetryInfo" with
    | none => 0
    | some ri =>
      match ri.retryDelaySec with
      | none => 0
      | some n => n * 1000

/-- The delay update of one retry (services/geminiService.ts:146-150): use the
API-provided delay when it is positive, otherwise multiply the current delay
by the backoff factor. -/
def nextDelay (e : JsError) (delay : ℚ) (factor : ℚ) : ℚ :=
  if 0 < customRetryDelayMs e then (customRetryDelayMs e : ℚ) else delay * factor

/-- Outcome of `retry`: the final result, the total number of invocations of
the wrapped operation, and the delays slept before each retry, in order. -/
structure RetryResult (α : Type) where
  result : Except JsError α
  invocations : ℕ
  delays : List ℚ

/-- The loop of `retry` (services/geminiService.ts:96-156).  `ops k` is the
outcome of the k-th invocation of `fn` (the loop invokes `fn` exactly once per
iteration, and `retries` counts the completed iterations, so the iteration
with counter `retries` performs invocation number `retries`).  The loop in the
source is unbounded syntactically but `retries` grows by one per continued
iteration and the guard stops it at `maxRetries`; `fuel` makes that bound
structural: it is maintained at `maxRetries - retries`, so `fuel = 0` exactly
when `retries ≥ maxRetries`, and the fuel-exhausted branch coincides with the
source's give-up branch. -/
def retryGo {α : Type} (ops : ℕ → Except JsError α) (maxRetries : ℕ) (factor : ℚ) :
    ℕ → ℕ → ℚ → List ℚ → RetryResult α
  | fuel, retries, delay, acc =>
    match ops retries with
    | .ok v => ⟨.ok v, retries + 1, acc⟩
    | .error e =>
      match fuel with
      | 0 => ⟨.error e, retries + 1, acc⟩
      | fuel' + 1 =>
        if isRetryableError e = false ∨ maxRetries ≤ retries then
          ⟨.error e, retries + 1, acc⟩
        else
          let d := nextDelay e delay factor
          retryGo ops maxRetries factor fuel' (retries + 1) d (acc ++ [d])

/-- `retry fn maxRetries initialDelayMs factor`: run the loop from zero
retries with the initial delay. -/
def retryModel {α : Type} (ops : ℕ → Except JsError α) (maxRetries : ℕ)
    (initialDelayMs factor : ℚ) : RetryResult α :=
  retryGo ops maxRetries factor maxRetries 0 initialDelayMs []

/-- The constant `API_MAX_RETRIES` (constants.ts:37). -/
def API_MAX_RETRIES : ℕ := 10

/-- The constant `API_RETRY_INITIAL_DELAY_MS` (constants.ts:38). -/
def API_RETRY_INITIAL_DELAY_MS : ℚ := 1000

/-- The constant `API_RETRY_BACKOFF_FACTOR` (constants.ts:39). -/
def API_RETRY_BACKOFF_FACTOR : ℚ := 2

/-- `translateText`'s failure handling (services/geminiService.ts:337-369):
the remote call runs under `retry` with the shared policy and the catch block
re-throws the caught error object unchanged, so the caller sees exactly the
retry outcome.  (Prompt construction and the response's `text` projection are
outside the failure path and are abstracted into `ops`.) -/
def translateTextModel {α : Type} (ops : ℕ → Except JsError α) : Except JsError α :=
  match retryModel ops API_MAX_RETRIES API_RETRY_INITIAL_DELAY_MS API_RETRY_BACKOFF_FACTOR with
  | ⟨.ok v, _, _⟩ => .ok v
  | ⟨.error e, _, _⟩ => .error e

/-- Whether `text.trim()` is empty, i.e. the text is all whitespace. -/
def isBlank (text : String) : Bool := text.data.all Char.isWhitespace

/-- `generateSpeech`'s failure handling (services/geminiService.ts:376-413):
empty (whitespace-only) text short-circuits to an empty string; otherwise the
call runs under `retry` and the catch block re-throws the caught error
unchanged.  (`ops` stands for the attempt body including the
no-audio-data-found throw.) -/
def generateSpeechModel (text : String) (ops : ℕ → Except JsError String) :
    Except JsError String :=
  if isBlank text then .ok ""
  else
    match retryModel ops API_MAX_RETRIES API_RETRY_INITIAL_DELAY_MS API_RETRY_BACKOFF_FACTOR with
    | ⟨.ok v, _, _⟩ => .ok v
    | ⟨.error e, _, _⟩ => .error e

/-- `detectLanguage`'s failure handling (services/geminiService.ts:283-327):
the call runs under `retry`, but the surrounding catch block swallows any
terminal error and returns `null`.  (`ops` stands for the remote call; the
success-path JSON parsing, which can also yield `null`, is abstracted into the
success value.) -/
def detectLanguageModel {α : Type} (ops : ℕ → Except JsError α) : Option α :=
  match retryModel ops API_MAX_RETRIES API_RETRY_INITIAL_DELAY_MS API_RETRY_BACKOFF_FACTOR with
  | ⟨.ok v, _, _⟩ => some v
  | ⟨.error _, _, _⟩ => none

/-- The delay discipline the code actually implements, as a relation: starting
from the running delay value `d`, each successive retry's slept delay is the
server-suggested delay when that is positive, and otherwise the previous
running delay times the backoff factor; the slept delay becomes the new
running delay either way.  `k` is the index of the invocation whose failure
precedes the retry. -/
inductive DelayChain {α : Type} (ops : ℕ → Except JsError α) (factor : ℚ) :
    ℕ → ℚ → List ℚ → Prop where
  | nil : ∀ k d, DelayChain ops factor k d []
  | cons : ∀ k d e rest, ops k = .error e →
      DelayChain ops factor (k + 1) (nextDelay e d factor) rest →
      DelayChain ops factor k d (nextDelay e d factor :: rest)

/-- Whether an `Except` value is a success. -/
def isOkE {ε α : Type} : Except ε α → Bool
  | .ok _ => true
  | .error _ => false

/-- A concrete transiently-classified error (code 503). -/
def sampleRetryableError : JsError := ⟨true, 503, none, "Service Unavailable", none⟩

/-- A concrete rate-limit error carrying a server-suggested retry delay of
5 whole seconds in its `RetryInfo` detail. -/
def sampleDelayError : JsError :=
  ⟨true, 429, none, "quota exceeded",
    some [⟨"type.googleapis.com/google.rpc.RetryInfo", some 5⟩]⟩

/-- A concrete fatally-classified error (code 500, no transient marker). -/
def sampleFatalError : JsError := ⟨true, 500, some "INTERNAL", "boom", none⟩

/-- An operation trace that fails transiently twice, then succeeds. -/
def opsTwoFailThenOk : ℕ → Except JsError ℕ := fun k =>
  if k < 2 then .error sampleRetryableError else .ok 42

/-- An operation trace whose every invocation fails transiently. -/
def opsAlwaysFail : ℕ → Except JsError ℕ := fun _ => .error sampleRetryableError

/-- An operation trace whose first failure suggests a 5-second delay, whose
second failure is plainly transient, and which then succeeds. -/
def opsDelayed : ℕ → Except JsError ℕ := fun k =>
  if k = 0 then .error sampleDelayError
  else if k = 1 then .error sampleRetryableError
  else .ok 7

/-- An operation trace whose every invocation fails fatally. -/
def opsFatal : ℕ → Except JsError String := fun _ => .error sampleFatalError

theorem durationB_nonneg (b : AudioBufferM) : 0 ≤ durationB b := by
  unfold durationB
  positivity

theorem playAudio_preserves_schedInv (s : String) (now : ℚ) (st : PlayState)
    (h : schedInv st) : schedInv (playAudio s now st).1 := by
  obtain ⟨hp, hm⟩ := h
  by_cases hs : s = ""
  · simpa [playAudio, hs] using ⟨hp, hm⟩
  · cases hd : decodePlayChunk s with
    | error e =>
      refine ⟨by simpa [playAudio, hs, hd] using hp, ?_⟩
      intro p hmem
      simp only [playAudio, hs, if_neg, hd] at hmem ⊢
      exact ⟨(hm p (by simpa using hmem)).1,
        le_trans (hm p (by simpa using hmem)).2 (le_max_left _ _)⟩
    | ok buf =>
      have hres : (playAudio s now st).1 =
          ⟨max st.nextStartTime now + durationB buf,
            st.scheduled ++ [(max st.nextStartTime now, durationB buf)]⟩ := by
        simp [playAudio, hs, hd]
      rw [hres]
      constructor
      · rw [List.pairwise_append]
        refine ⟨hp, by simp, ?_⟩
        intro p hpmem q hqmem
        simp only [List.mem_singleton] at hqmem
        subst hqmem
        exact le_trans (hm p hpmem).2 (le_max_left _ _)
      · intro p hmem
        rcases List.mem_append.mp hmem with hold | hnew
        · refine ⟨(hm p hold).1, ?_⟩
          calc p.1 + p.2 ≤ st.nextStartTime := (hm p hold).2
            _ ≤ max st.nextStartTime now := le_max_left _ _
            _ ≤ max st.nextStartTime now + durationB buf :=
                le_add_of_nonneg_right (durationB_nonneg buf)
        · rw [List.mem_singleton] at hnew
          subst hnew
          exact ⟨durationB_nonneg buf, le_refl _⟩

theorem playSeq_preserves_schedInv (calls : List (String × ℚ)) :
    ∀ st : PlayState, schedInv st → schedInv (playSeq calls st) := by
  induction calls with
  | nil => intro st h; simpa [playSeq] using h
  | cons c rest ih =>
    intro st h
    simpa [playSeq] using ih _ (playAudio_preserves_schedInv c.1 c.2 st h)

theorem okRun_cursor_sum (calls : List (String × ℚ)) :
    ∀ st : PlayState, okRun calls st = true →
    (playSeq calls st).nextStartTime = st.nextStartTime + totalDuration calls := by
  induction calls with
  | nil => intro st _; simp [playSeq, totalDuration]
  | cons c rest ih =>
    obtain ⟨s, now⟩ := c
    intro st h
    simp only [okRun, Bool.and_eq_true, bne_iff_ne, ne_eq, decide_eq_true_eq,
      Option.isNone_iff_eq_none, Bool.not_eq_eq_eq_not, Bool.not_true,
      beq_eq_false_iff_ne] at h
    obtain ⟨⟨⟨hs, hnow⟩, herr⟩, hrest⟩ := h
    cases hd : decodePlayChunk s with
    | error e => simp [playAudio, hs, hd] at herr
    | ok buf =>
      have hst : (playAudio s now st).1 =
          ⟨st.nextStartTime + durationB buf,
            st.scheduled ++ [(st.nextStartTime, durationB buf)]⟩ := by
        simp [playAudio, hs, hd, max_eq_left hnow]
      have hps : playSeq ((s, now) :: rest) st = playSeq rest (playAudio s now st).1 := by
        simp [playSeq]
      rw [hps, ih _ hrest, hst]
      have hdur : durationOf s = durationB buf := by simp [durationOf, hd]
      simp [totalDuration, hdur]
      ring

/-- C4: starting from any state satisfying the scheduler invariant (in
particular the initial one with cursor 0 and nothing scheduled), a sequence of
`playAudio` calls whose chunks all decode and that are delivered while the
device clock never advances past the cursor moves the cursor by exactly the
sum of the chunk durations; and under every clock behaviour the invariant is
preserved: each chunk starts at `max(cursor, now)`, at or after the previous
chunk's end, so no two scheduled playback intervals overlap. -/
theorem c4_backtoback_scheduling (calls : List (String × ℚ)) (st : PlayState)
    (hinv : schedInv st) :
    (okRun calls st = true →
      (playSeq calls st).nextStartTime = st.nextStartTime + totalDuration calls) ∧
      schedInv (playSeq calls st) :=
  ⟨okRun_cursor_sum calls st, playSeq_preserves_schedInv calls st hinv⟩

theorem decodePlayChunk_sample : decodePlayChunk "AAAAAAAA" = .ok ⟨24000, [[0, 0, 0]]⟩ := by
  have h1 : atob "AAAAAAAA" = some [0, 0, 0, 0, 0, 0] := by decide
  rw [decodePlayChunk, h1]
  simp [decodeAudioData, bytesToInt16s, readInt16LE, TTS_AUDIO_SAMPLE_RATE, List.range_succ]

theorem durationB_sample : durationB ⟨24000, [[0, 0, 0]]⟩ = 1 / 8000 := by
  norm_num [durationB, frameCountB]

theorem playAudio_sample_step1 : playAudio "AAAAAAAA" 0 ⟨0, []⟩ =
    (⟨1 / 8000, [(0, 1 / 8000)]⟩, none) := by
  simp [playAudio, decodePlayChunk_sample, durationB_sample]

theorem playAudio_sample_step2 : playAudio "AAAAAAAA" 0 ⟨1 / 8000, [(0, 1 / 8000)]⟩ =
    (⟨1 / 8000 + 1 / 8000, [(0, 1 / 8000), (1 / 8000, 1 / 8000)]⟩, none) := by
  simp [playAudio, decodePlayChunk_sample, durationB_sample]

theorem okRun_sample : okRun [("AAAAAAAA", 0), ("AAAAAAAA", 0)] ⟨0, []⟩ = true := by
  rw [okRun, playAudio_sample_step1, okRun, playAudio_sample_step2, okRun]
  norm_num
  decide

theorem c4_backtoback_scheduling_witness :
    okRun [("AAAAAAAA", 0), ("AAAAAAAA", 0)] ⟨0, []⟩ = true ∧
      ((playSeq [("AAAAAAAA", 0), ("AAAAAAAA", 0)] ⟨0, []⟩).nextStartTime =
          (PlayState.mk 0 []).nextStartTime +
            totalDuration [("AAAAAAAA", 0), ("AAAAAAAA", 0)] ∧
        schedInv (playSeq [("AAAAAAAA", 0), ("AAAAAAAA", 0)] ⟨0, []⟩)) :=
  have hinv : schedInv ⟨0, []⟩ := ⟨List.Pairwise.nil, by simp⟩
  ⟨okRun_sample,
    (c4_backtoback_scheduling [("AAAAAAAA", 0), ("AAAAAAAA", 0)] ⟨0, []⟩ hinv).1 okRun_sample,
    (c4_backtoback_scheduling [("AAAAAAAA", 0), ("AAAAAAAA", 0)] ⟨0, []⟩ hinv).2⟩

/-- C5 counterexample: a chunk of three bytes fails to decode (odd byte count
for 16-bit samples), yet with the device clock at 5 and the cursor at 0 the
failed call moves the cursor to 5: the cursor is not left unchanged by a
failed call. -/
theorem c5_counterexample :
    (playAudio "AAAA" 5 ⟨0, []⟩).2 = some .malformedLength ∧
      (playAudio "AAAA" 5 ⟨0, []⟩).1.nextStartTime ≠
        (PlayState.mk 0 []).nextStartTime := by
  constructor
  · decide
  · decide

/-- C5 (amended): a `playAudio` call whose chunk fails to decode propagates
the error and leaves the scheduled set unchanged, but the cursor has already
been clamped: afterwards it equals `max` of its previous value and the device
clock, so it is unchanged only when the clock has not advanced past it. -/
theorem c5_decode_failure_clamps_cursor (s : String) (now : ℚ) (st : PlayState)
    (e : AudioError) (h : (playAudio s now st).2 = some e) :
    (playAudio s now st).1.nextStartTime = max st.nextStartTime now ∧
      (playAudio s now st).1.scheduled = st.scheduled := by
  by_cases hs : s = ""
  · simp [playAudio, hs] at h
  · cases hd : decodePlayChunk s with
    | error e2 => simp [playAudio, hs, hd]
    | ok buf => simp [playAudio, hs, hd] at h

theorem c5_decode_failure_clamps_cursor_witness :
    (playAudio "AAAA" 5 ⟨0, []⟩).2 = some .malformedLength ∧
      ((playAudio "AAAA" 5 ⟨0, []⟩).1.nextStartTime = max 0 5 ∧
        (playAudio "AAAA" 5 ⟨0, []⟩).1.scheduled = []) :=
  ⟨by decide, c5_decode_failure_clamps_cursor "AAAA" 5 ⟨0, []⟩ .malformedLength (by decide)⟩

/-- C10: a `playAudio` call with an empty audio string returns immediately:
no error, no cursor change, no change to the scheduled-source set, no
playback started. -/
theorem c10_empty_chunk_is_noop (now : ℚ) (st : PlayState) :
    playAudio "" now st = (st, none) := rfl

theorem wrap16_range (i : ℤ) : -32768 ≤ wrap16 i ∧ wrap16 i < 32768 := by
  simp only [wrap16]
  split <;> omega

theorem wrap16_eq_of_range (v : ℤ) (h1 : -32768 ≤ v) (h2 : v < 32768) : wrap16 v = v := by
  simp only [wrap16]
  split <;> omega

theorem toInt16_range (q : ℚ) : -32768 ≤ toInt16 q ∧ toInt16 q < 32768 :=
  wrap16_range _

theorem truncQ_bound_of (q : ℚ) (h1 : -32768 ≤ q) (h2 : q < 32768) :
    -32768 ≤ truncQ q ∧ truncQ q < 32768 := by
  unfold truncQ
  split
  case isTrue h =>
    constructor
    · have : (0 : ℤ) ≤ ⌊q⌋ := Int.floor_nonneg.mpr h
      omega
    · exact Int.floor_lt.mpr (by exact_mod_cast h2)
  case isFalse h =>
    push_neg at h
    constructor
    · have h4 : ((⌊-q⌋ : ℤ) : ℚ) ≤ 32768 := le_trans (Int.floor_le (-q)) (by linarith)
      have h5 : (⌊-q⌋ : ℤ) ≤ 32768 := by exact_mod_cast h4
      omega
    · have : (0 : ℤ) ≤ ⌊-q⌋ := Int.floor_nonneg.mpr (by linarith)
      omega

theorem toInt16_eq_truncQ (q : ℚ) (h1 : -32768 ≤ q) (h2 : q < 32768) :
    toInt16 q = truncQ q :=
  wrap16_eq_of_range _ (truncQ_bound_of q h1 h2).1 (truncQ_bound_of q h1 h2).2

theorem truncQ_close (q : ℚ) : |q - (truncQ q : ℚ)| ≤ 1 := by
  unfold truncQ
  split
  case isTrue h =>
    rw [abs_le]
    refine ⟨by have := Int.floor_le q; linarith, ?_⟩
    have := Int.lt_floor_add_one q
    linarith
  case isFalse h =>
    push_neg at h
    rw [abs_le]
    push_cast
    refine ⟨?_, ?_⟩
    · have := Int.lt_floor_add_one (-q)
      linarith
    · have := Int.floor_le (-q)
      linarith

theorem sample_quant (q : ℚ) (h1 : -1 ≤ q) (h2 : q < 1) :
    |q - ((toInt16 (q * 32768) : ℤ) : ℚ) / 32768| ≤ 1 / 32768 := by
  have hb1 : (-32768 : ℚ) ≤ q * 32768 := by linarith
  have hb2 : q * 32768 < 32768 := by linarith
  rw [toInt16_eq_truncQ _ hb1 hb2]
  have hkey := truncQ_close (q * 32768)
  have h3 : q - (truncQ (q * 32768) : ℚ) / 32768 =
      (q * 32768 - (truncQ (q * 32768) : ℚ)) / 32768 := by ring
  rw [h3, abs_div, abs_of_pos (by norm_num : (0:ℚ) < 32768)]
  exact (div_le_div_iff_of_pos_right (by norm_num : (0:ℚ) < 32768)).mpr hkey

theorem readInt16LE_int16ToBytesLE (v : ℤ) (h1 : -32768 ≤ v) (h2 : v < 32768) (rest : List ℕ) :
    bytesToInt16s (int16ToBytesLE v ++ rest) = v :: bytesToInt16s rest := by
  have happ : int16ToBytesLE v ++ rest =
      ((v % 65536).toNat % 256) :: ((v % 65536).toNat / 256) :: rest := by
    simp [int16ToBytesLE]
  rw [happ, bytesToInt16s]
  congr 1
  simp only [readInt16LE]
  split <;> omega

theorem bytesToInt16s_createPcmBlobBytes (x : List ℚ) :
    bytesToInt16s (createPcmBlobBytes x) = createPcmBlobInt16 x := by
  induction x with
  | nil => rfl
  | cons a rest ih =>
    have hcons : createPcmBlobBytes (a :: rest) =
        int16ToBytesLE (toInt16 (a * 32768)) ++ createPcmBlobBytes rest := by
      simp [createPcmBlobBytes, createPcmBlobInt16]
    rw [hcons, readInt16LE_int16ToBytesLE _ (toInt16_range _).1 (toInt16_range _).2, ih]
    simp [createPcmBlobInt16]

theorem createPcmBlobBytes_length (x : List ℚ) :
    (createPcmBlobBytes x).length = 2 * x.length := by
  induction x with
  | nil => rfl
  | cons a rest ih =>
    have hcons : createPcmBlobBytes (a :: rest) =
        int16ToBytesLE (toInt16 (a * 32768)) ++ createPcmBlobBytes rest := by
      simp [createPcmBlobBytes, createPcmBlobInt16]
    rw [hcons]
    simp [int16ToBytesLE, ih]
    ring

theorem createPcmBlobInt16_length (x : List ℚ) :
    (createPcmBlobInt16 x).length = x.length := by
  simp [createPcmBlobInt16]

theorem rangeMap_getD {α : Type} (n i : ℕ) (f : ℕ → α) (d : α) (h : i < n) :
    ((List.range n).map f).getD i d = f i := by
  rw [List.getD_eq_getElem?_getD, List.getElem?_map, List.getElem?_range h]
  rfl

theorem map_getD_lt {α β : Type} (l : List α) (f : α → β) (i : ℕ) (d : β) (d' : α)
    (h : i < l.length) : (l.map f).getD i d = f (l.getD i d') := by
  rw [List.getD_eq_getElem?_getD, List.getElem?_map,
    List.getElem?_eq_getElem h, List.getD_eq_getElem _ _ h]
  rfl

theorem clamp_mem (x : ℚ) : -1 ≤ max (-1 : ℚ) (min 1 x) ∧ max (-1 : ℚ) (min 1 x) ≤ 1 :=
  ⟨le_max_left _ _, max_le (by norm_num) (min_le_left _ _)⟩

/-- C7 counterexample: on the input sample 2 the capture-path encode
`createPcmBlob` emits the bytes of 0 (2·0x8000 = 0x10000 wraps to 0), while
the mapping the claim describes — clamp to [-1,1], then scale by 0x7FFF —
emits the bytes of 0x7FFF; so `createPcmBlob` does not implement the claimed
per-sample mapping. -/
theorem c7_counterexample :
    createPcmBlobBytes [2] = [0, 0] ∧ pcmEncodeSpec [2] = [255, 127] ∧
      createPcmBlobBytes [2] ≠ pcmEncodeSpec [2] := by
  have h1 : createPcmBlobBytes [2] = [0, 0] := by
    norm_num [createPcmBlobBytes, createPcmBlobInt16, toInt16, truncQ, wrap16, int16ToBytesLE]
  have h2 : pcmEncodeSpec [2] = [255, 127] := by
    norm_num [pcmEncodeSpec, clampScaleSpec, truncQ, int16ToBytesLE]
    decide
  exact ⟨h1, h2, by rw [h1, h2]; decide⟩

/-- C7 (amended): the WAV-path `floatTo16BitPCM` does implement the claimed
per-sample mapping — each sample clamped to [-1, 1], scaled by 0x7FFF when
non-negative and 0x8000 when negative, truncated toward zero, and written
little-endian as a signed 16-bit value, two bytes per sample.  (The
capture-path `createPcmBlob` does not: it scales every sample by 0x8000
without clamping, as the counterexample shows.) -/
theorem c7_pcm_encoding (xs : List ℚ) : floatTo16BitPCM xs = pcmEncodeSpec xs := by
  induction xs with
  | nil => rfl
  | cons x rest ih =>
    have hspec : pcmEncodeSpec (x :: rest) =
        int16ToBytesLE (clampScaleSpec x) ++ pcmEncodeSpec rest := by
      simp [pcmEncodeSpec]
    rw [floatTo16BitPCM, hspec, ih]
    congr 2
    set s := max (-1 : ℚ) (min 1 x) with hs
    have hsb := clamp_mem x
    rw [clampScaleSpec]
    by_cases hneg : s < 0
    · rw [if_pos hneg, if_neg (by linarith)]
      exact toInt16_eq_truncQ _ (by nlinarith [hsb.1]) (by nlinarith [hsb.1, hsb.2])
    · push_neg at hneg
      rw [if_neg (by linarith), if_pos hneg]
      exact toInt16_eq_truncQ _ (by nlinarith) (by nlinarith [hsb.2])

theorem decode_encode_eq (x : List ℚ) (h0 : x ≠ []) :
    decodeAudioData (createPcmBlobBytes x) 24000 1 =
      .ok ⟨24000, [(List.range x.length).map fun i =>
        (((createPcmBlobInt16 x).getD i 0 : ℤ) : ℚ) / 32768]⟩ := by
  have hlen : (createPcmBlobBytes x).length = 2 * x.length := createPcmBlobBytes_length x
  have hint : bytesToInt16s (createPcmBlobBytes x) = createPcmBlobInt16 x :=
    bytesToInt16s_createPcmBlobBytes x
  have hn : x.length ≠ 0 := fun h => h0 (List.eq_nil_of_length_eq_zero h)
  rw [decodeAudioData]
  rw [if_neg (by omega)]
  simp only [hint, createPcmBlobInt16_length, Nat.div_one]
  rw [if_neg hn]
  simp [List.range_succ]

/-- C6 counterexample: the sample value 1 lies in [-1, 1], yet encoding it
with `createPcmBlob` (1·0x8000 = 0x8000 wraps to -0x8000) and decoding yields
-1, an error of 2 — far beyond one quantization step — so the round-trip law
fails on the claimed domain. -/
theorem c6_counterexample :
    ((-1 : ℚ) ≤ 1 ∧ (1 : ℚ) ≤ 1) ∧ roundTripWithinQuantum [1] = false := by
  refine ⟨by norm_num, ?_⟩
  rw [roundTripWithinQuantum, decode_encode_eq [1] (by simp)]
  have hval : createPcmBlobInt16 [1] = [-32768] := by
    norm_num [createPcmBlobInt16, toInt16, truncQ, wrap16]
  rw [hval]
  simp [List.range_succ]
  norm_num

/-- C6 (amended): for every non-empty sample sequence whose values lie in
[-1, 1) — strictly below 1, where the unclamped scale-by-0x8000 of
`createPcmBlob` cannot overflow the signed 16-bit range — decoding the
encoding agrees with the input within one quantization step (1/32768) at
every sample position. -/
theorem c6_roundtrip_within_quantum (x : List ℚ) (h0 : x ≠ [])
    (h : ∀ v ∈ x, -1 ≤ v ∧ v < 1) : roundTripWithinQuantum x = true := by
  rw [roundTripWithinQuantum, decode_encode_eq x h0]
  simp only [List.getD_cons_zero]
  rw [Bool.and_eq_true]
  constructor
  · simp
  · rw [List.all_eq_true]
    intro i hi
    rw [List.mem_range] at hi
    rw [decide_eq_true_eq]
    rw [rangeMap_getD _ _ _ _ hi]
    have hget : (createPcmBlobInt16 x).getD i 0 = toInt16 (x.getD i 0 * 32768) := by
      have := map_getD_lt x (fun v => toInt16 (v * 32768)) i 0 0 (by simpa using hi)
      simpa [createPcmBlobInt16] using this
    rw [hget]
    have hmem : x.getD i 0 ∈ x := by
      rw [List.getD_eq_getElem _ _ hi]
      exact List.getElem_mem hi
    exact sample_quant _ (h _ hmem).1 (h _ hmem).2

theorem c6_roundtrip_within_quantum_witness : roundTripWithinQuantum [1 / 2] = true :=
  c6_roundtrip_within_quantum [1 / 2] (by simp) (by
    intro v hv
    rw [List.mem_singleton] at hv
    subst hv
    norm_num)

theorem readU32LE_append (pre : List ℕ) (a b c d : ℕ) (rest : List ℕ) :
    readU32LE (pre ++ a :: b :: c :: d :: rest) pre.length =
      a + 256 * b + 65536 * c + 16777216 * d := by
  unfold readU32LE
  rw [List.drop_left]

theorem readU16LE_append (pre : List ℕ) (a b : ℕ) (rest : List ℕ) :
    readU16LE (pre ++ a :: b :: rest) pre.length = a + 256 * b := by
  unfold readU16LE
  rw [List.drop_left]

theorem readU32LE_at_u32le (pre rest : List ℕ) (n : ℕ) :
    readU32LE (pre ++ (u32le n ++ rest)) pre.length = n % 4294967296 := by
  have h1 : u32le n ++ rest = (n % 256) :: (n / 256 % 256) :: (n / 65536 % 256)
      :: (n / 16777216 % 256) :: rest := by simp [u32le]
  rw [h1, readU32LE_append]
  omega

theorem readU16LE_at_u16le (pre rest : List ℕ) (n : ℕ) :
    readU16LE (pre ++ (u16le n ++ rest)) pre.length = n % 65536 := by
  have h1 : u16le n ++ rest = (n % 256) :: (n / 256 % 256) :: rest := by simp [u16le]
  rw [h1, readU16LE_append]
  omega

theorem floatTo16BitPCM_length (xs : List ℚ) : (floatTo16BitPCM xs).length = 2 * xs.length := by
  induction xs with
  | nil => rfl
  | cons x rest ih =>
    rw [floatTo16BitPCM]
    simp [int16ToBytesLE, ih]
    ring

theorem readU32LE_append_len (pre mid rest : List ℕ) (off n : ℕ)
    (hoff : pre.length = off) (hmid : mid = u32le n) :
    readU32LE (pre ++ (mid ++ rest)) off = n % 4294967296 := by
  subst hoff
  subst hmid
  exact readU32LE_at_u32le pre rest n

theorem readU16LE_append_len (pre mid rest : List ℕ) (off n : ℕ)
    (hoff : pre.length = off) (hmid : mid = u16le n) :
    readU16LE (pre ++ (mid ++ rest)) off = n % 65536 := by
  subst hoff
  subst hmid
  exact readU16LE_at_u16le pre rest n

theorem drop_append_len (pre rest : List ℕ) (off : ℕ) (hoff : pre.length = off) :
    (pre ++ rest).drop off = rest := by
  subst hoff
  exact List.drop_left pre rest

/-- C9: `encodeWAV` emits a 44-byte header followed by the 16-bit PCM payload
of channel 0 only; the little-endian uint32 at offset 4 is 36 + dataLength,
the uint32 at offset 40 is dataLength = 2 x frameCount, the uint32 at offset
28 (byte rate) is sampleRate x channels x 2, the uint16 at offset 32 (block
align) is channels x 2, and the uint16 at offset 34 (bits per sample) is 16 —
under the fitting bounds the 32/16-bit header fields impose. -/
theorem c9_wav_header_fields (b : AudioBufferM)
    (h1 : 36 + 2 * frameCountB b < 4294967296)
    (h2 : b.sampleRate * b.channels.length * 2 < 4294967296)
    (h3 : b.channels.length * 2 < 65536) :
    (encodeWAV b).length = 44 + 2 * frameCountB b ∧
      (encodeWAV b).drop 44 = floatTo16BitPCM (getChannelData b 0) ∧
      readU32LE (encodeWAV b) 4 = 36 + 2 * frameCountB b ∧
      readU32LE (encodeWAV b) 40 = 2 * frameCountB b ∧
      readU32LE (encodeWAV b) 28 = b.sampleRate * b.channels.length * 2 ∧
      readU16LE (encodeWAV b) 32 = b.channels.length * 2 ∧
      readU16LE (encodeWAV b) 34 = 16 := by
  have hfc : frameCountB b = (b.channels.getD 0 []).length := rfl
  rw [hfc] at h1 ⊢
  refine ⟨?_, ?_, ?_, ?_, ?_, ?_, ?_⟩
  · simp only [encodeWAV, List.length_append, List.length_cons, List.length_nil,
      u32le, u16le, floatTo16BitPCM_length]
  · have hrw : encodeWAV b =
        ([82, 73, 70, 70] ++ (u32le (36 + (b.channels.getD 0 []).length * 2) ++
          ([87, 65, 86, 69, 102, 109, 116, 32] ++ (u32le 16 ++ (u16le 1 ++
            (u16le b.channels.length ++ (u32le b.sampleRate ++
              (u32le (b.sampleRate * b.channels.length * 2) ++
                (u16le (b.channels.length * 2) ++ (u16le 16 ++
                  ([100, 97, 116, 97] ++
                    u32le ((b.channels.getD 0 []).length * 2)))))))))))) ++
          floatTo16BitPCM (b.channels.getD 0 []) := by
      simp [encodeWAV, List.append_assoc]
    rw [hrw]
    exact drop_append_len _ _ 44 (by simp [u32le, u16le])
  · have hrw : encodeWAV b = [82, 73, 70, 70] ++
        (u32le (36 + (b.channels.getD 0 []).length * 2) ++
          ([87, 65, 86, 69, 102, 109, 116, 32] ++ (u32le 16 ++ (u16le 1 ++
            (u16le b.channels.length ++ (u32le b.sampleRate ++
              (u32le (b.sampleRate * b.channels.length * 2) ++
                (u16le (b.channels.length * 2) ++ (u16le 16 ++
                  ([100, 97, 116, 97] ++ (u32le ((b.channels.getD 0 []).length * 2) ++
                    floatTo16BitPCM (b.channels.getD 0 [])))))))))))) := by
      simp [encodeWAV, List.append_assoc]
    rw [hrw]
    exact (readU32LE_append_len _ _ _ 4 _ (by simp) rfl).trans (by omega)
  · have hrw : encodeWAV b = ([82, 73, 70, 70] ++
        (u32le (36 + (b.channels.getD 0 []).length * 2) ++
          ([87, 65, 86, 69, 102, 109, 116, 32] ++ (u32le 16 ++ (u16le 1 ++
            (u16le b.channels.length ++ (u32le b.sampleRate ++
              (u32le (b.sampleRate * b.channels.length * 2) ++
                (u16le (b.channels.length * 2) ++ (u16le 16 ++
                  [100, 97, 116, 97])))))))))) ++
        (u32le ((b.channels.getD 0 []).length * 2) ++
          floatTo16BitPCM (b.channels.getD 0 [])) := by
      simp [encodeWAV, List.append_assoc]
    rw [hrw]
    exact (readU32LE_append_len _ _ _ 40 _ (by simp [u32le, u16le]) rfl).trans (by omega)
  · have hrw : encodeWAV b = ([82, 73, 70, 70] ++
        (u32le (36 + (b.channels.getD 0 []).length * 2) ++
          ([87, 65, 86, 69, 102, 109, 116, 32] ++ (u32le 16 ++ (u16le 1 ++
            (u16le b.channels.length ++ u32le b.sampleRate)))))) ++
        (u32le (b.sampleRate * b.channels.length * 2) ++
          (u16le (b.channels.length * 2) ++ (u16le 16 ++
            ([100, 97, 116, 97] ++ (u32le ((b.channels.getD 0 []).length * 2) ++
              floatTo16BitPCM (b.channels.getD 0 [])))))) := by
      simp [encodeWAV, List.append_assoc]
    rw [hrw]
    exact (readU32LE_append_len _ _ _ 28 _ (by simp [u32le, u16le]) rfl).trans (by omega)
  · have hrw : encodeWAV b = ([82, 73, 70, 70] ++
        (u32le (36 + (b.channels.getD 0 []).length * 2) ++
          ([87, 65, 86, 69, 102, 109, 116, 32] ++ (u32le 16 ++ (u16le 1 ++
            (u16le b.channels.length ++ (u32le b.sampleRate ++
              u32le (b.sampleRate * b.channels.length * 2)))))))) ++
        (u16le (b.channels.length * 2) ++ (u16le 16 ++
          ([100, 97, 116, 97] ++ (u32le ((b.channels.getD 0 []).length * 2) ++
            floatTo16BitPCM (b.channels.getD 0 []))))) := by
      simp [encodeWAV, List.append_assoc]
    rw [hrw]
    exact (readU16LE_append_len _ _ _ 32 _ (by simp [u32le, u16le]) rfl).trans (by omega)
  · have hrw : encodeWAV b = ([82, 73, 70, 70] ++
        (u32le (36 + (b.channels.getD 0 []).length * 2) ++
          ([87, 65, 86, 69, 102, 109, 116, 32] ++ (u32le 16 ++ (u16le 1 ++
            (u16le b.channels.length ++ (u32le b.sampleRate ++
              (u32le (b.sampleRate * b.channels.length * 2) ++
                u16le (b.channels.length * 2))))))))) ++
        (u16le 16 ++ ([100, 97, 116, 97] ++
          (u32le ((b.channels.getD 0 []).length * 2) ++
            floatTo16BitPCM (b.channels.getD 0 [])))) := by
      simp [encodeWAV, List.append_assoc]
    rw [hrw]
    exact (readU16LE_append_len _ _ _ 34 _ (by simp [u32le, u16le]) rfl).trans (by norm_num)


theorem c9_wav_header_fields_witness :
    (encodeWAV ⟨8000, [[0, 1]]⟩).length = 44 + 2 * frameCountB ⟨8000, [[0, 1]]⟩ ∧
      (encodeWAV ⟨8000, [[0, 1]]⟩).drop 44 = floatTo16BitPCM (getChannelData ⟨8000, [[0, 1]]⟩ 0) ∧
      readU32LE (encodeWAV ⟨8000, [[0, 1]]⟩) 4 = 36 + 2 * frameCountB ⟨8000, [[0, 1]]⟩ ∧
      readU32LE (encodeWAV ⟨8000, [[0, 1]]⟩) 40 = 2 * frameCountB ⟨8000, [[0, 1]]⟩ ∧
      readU32LE (encodeWAV ⟨8000, [[0, 1]]⟩) 28 =
        (AudioBufferM.mk 8000 [[0, 1]]).sampleRate * (AudioBufferM.mk 8000 [[0, 1]]).channels.length * 2 ∧
      readU16LE (encodeWAV ⟨8000, [[0, 1]]⟩) 32 = (AudioBufferM.mk 8000 [[0, 1]]).channels.length * 2 ∧
      readU16LE (encodeWAV ⟨8000, [[0, 1]]⟩) 34 = 16 :=
  c9_wav_header_fields ⟨8000, [[0, 1]]⟩ (by decide) (by decide) (by decide)

theorem retryGo_step_ok {α : Type} (ops : ℕ → Except JsError α) (maxR : ℕ) (factor : ℚ)
    (fuel retries : ℕ) (delay : ℚ) (acc : List ℚ) (v : α) (hops : ops retries = .ok v) :
    retryGo ops maxR factor fuel retries delay acc = ⟨.ok v, retries + 1, acc⟩ := by
  rw [retryGo, hops]

theorem retryGo_step_fuelzero {α : Type} (ops : ℕ → Except JsError α) (maxR : ℕ) (factor : ℚ)
    (retries : ℕ) (delay : ℚ) (acc : List ℚ) (e : JsError) (hops : ops retries = .error e) :
    retryGo ops maxR factor 0 retries delay acc = ⟨.error e, retries + 1, acc⟩ := by
  rw [retryGo, hops]

theorem retryGo_step_throw {α : Type} (ops : ℕ → Except JsError α) (maxR : ℕ) (factor : ℚ)
    (fuel retries : ℕ) (delay : ℚ) (acc : List ℚ) (e : JsError) (hops : ops retries = .error e)
    (hterm : isRetryableError e = false ∨ maxR ≤ retries) :
    retryGo ops maxR factor fuel retries delay acc = ⟨.error e, retries + 1, acc⟩ := by
  rw [retryGo, hops]
  cases fuel with
  | zero => rfl
  | succ fuel' => simp only [if_pos hterm]

theorem retryGo_step_retry {α : Type} (ops : ℕ → Except JsError α) (maxR : ℕ) (factor : ℚ)
    (fuel retries : ℕ) (delay : ℚ) (acc : List ℚ) (e : JsError)
    (hfuel : fuel ≠ 0) (hops : ops retries = .error e)
    (hr : isRetryableError e = true) (hlt : retries < maxR) :
    retryGo ops maxR factor fuel retries delay acc =
      retryGo ops maxR factor (fuel - 1) (retries + 1) (nextDelay e delay factor)
        (acc ++ [nextDelay e delay factor]) := by
  obtain ⟨fuel', rfl⟩ : ∃ f, fuel = f + 1 := ⟨fuel - 1, by omega⟩
  rw [retryGo, hops]
  simp only [Nat.add_sub_cancel]
  rw [if_neg]
  push_neg
  exact ⟨by simp [hr], by omega⟩

theorem retryGo_invocations_le {α : Type} (ops : ℕ → Except JsError α) (maxR : ℕ) (factor : ℚ) :
    ∀ (fuel retries : ℕ) (delay : ℚ) (acc : List ℚ),
      (retryGo ops maxR factor fuel retries delay acc).invocations ≤ retries + fuel + 1 := by
  intro fuel
  induction fuel with
  | zero =>
    intro retries delay acc
    cases hops : ops retries with
    | ok v => rw [retryGo_step_ok _ _ _ _ _ _ _ _ hops]
    | error e => rw [retryGo_step_fuelzero _ _ _ _ _ _ _ hops]
  | succ fuel' ih =>
    intro retries delay acc
    cases hops : ops retries with
    | ok v =>
      rw [retryGo_step_ok _ _ _ _ _ _ _ _ hops]
      dsimp only
      omega
    | error e =>
      by_cases hterm : isRetryableError e = false ∨ maxR ≤ retries
      · rw [retryGo_step_throw _ _ _ _ _ _ _ _ hops hterm]
        dsimp only
        omega
      · push_neg at hterm
        have hr : isRetryableError e = true := by
          cases h : isRetryableError e
          · exact absurd h hterm.1
          · rfl
        have := ih (retries + 1) (nextDelay e delay factor)
          (acc ++ [nextDelay e delay factor])
        rw [retryGo_step_retry _ _ _ _ _ _ _ _ (by omega) hops hr (by omega)]
        simp only [Nat.add_sub_cancel]
        omega

theorem retryGo_error_is_last {α : Type} (ops : ℕ → Except JsError α) (maxR : ℕ) (factor : ℚ) :
    ∀ (fuel retries : ℕ) (delay : ℚ) (acc : List ℚ) (e : JsError),
      (retryGo ops maxR factor fuel retries delay acc).result = .error e →
      ops ((retryGo ops maxR factor fuel retries delay acc).invocations - 1) = .error e := by
  intro fuel
  induction fuel with
  | zero =>
    intro retries delay acc e h
    cases hops : ops retries with
    | ok v => rw [retryGo_step_ok _ _ _ _ _ _ _ _ hops] at h ⊢; exact absurd h (by simp)
    | error e2 =>
      rw [retryGo_step_fuelzero _ _ _ _ _ _ _ hops] at h ⊢
      simp only [Nat.add_sub_cancel] at *
      simp only [Except.error.injEq] at h
      rw [hops, h]
  | succ fuel' ih =>
    intro retries delay acc e h
    cases hops : ops retries with
    | ok v => rw [retryGo_step_ok _ _ _ _ _ _ _ _ hops] at h ⊢; exact absurd h (by simp)
    | error e2 =>
      by_cases hterm : isRetryableError e2 = false ∨ maxR ≤ retries
      · rw [retryGo_step_throw _ _ _ _ _ _ _ _ hops hterm] at h ⊢
        simp only [Except.error.injEq] at h
        simp only [Nat.add_sub_cancel]
        rw [hops, h]
      · push_neg at hterm
        have hr : isRetryableError e2 = true := by
          cases hx : isRetryableError e2
          · exact absurd hx hterm.1
          · rfl
        rw [retryGo_step_retry _ _ _ _ _ _ _ _ (by omega) hops hr (by omega)] at h ⊢
        exact ih _ _ _ e h

theorem retryGo_delays_chain {α : Type} (ops : ℕ → Except JsError α) (maxR : ℕ) (factor : ℚ) :
    ∀ (fuel retries : ℕ) (delay : ℚ) (acc : List ℚ), ∃ tail,
      (retryGo ops maxR factor fuel retries delay acc).delays = acc ++ tail ∧
        DelayChain ops factor retries delay tail := by
  intro fuel
  induction fuel with
  | zero =>
    intro retries delay acc
    refine ⟨[], ?_, DelayChain.nil _ _⟩
    cases hops : ops retries with
    | ok v => rw [retryGo_step_ok _ _ _ _ _ _ _ _ hops]; simp
    | error e => rw [retryGo_step_fuelzero _ _ _ _ _ _ _ hops]; simp
  | succ fuel' ih =>
    intro retries delay acc
    cases hops : ops retries with
    | ok v => exact ⟨[], by rw [retryGo_step_ok _ _ _ _ _ _ _ _ hops]; simp, DelayChain.nil _ _⟩
    | error e =>
      by_cases hterm : isRetryableError e = false ∨ maxR ≤ retries
      · exact ⟨[], by rw [retryGo_step_throw _ _ _ _ _ _ _ _ hops hterm]; simp,
          DelayChain.nil _ _⟩
      · push_neg at hterm
        have hr : isRetryableError e = true := by
          cases hx : isRetryableError e
          · exact absurd hx hterm.1
          · rfl
        obtain ⟨tail, htail, hchain⟩ := ih (retries + 1) (nextDelay e delay factor)
          (acc ++ [nextDelay e delay factor])
        refine ⟨nextDelay e delay factor :: tail, ?_, ?_⟩
        · rw [retryGo_step_retry _ _ _ _ _ _ _ _ (by omega) hops hr (by omega)]
          simp only [Nat.add_sub_cancel]
          rw [htail]
          simp
        · exact DelayChain.cons _ _ _ _ hops hchain

/-- C1: the retry loop invokes the operation at most `maxRetries + 1` times
for every operation trace and policy (hard ceiling); an operation failing
twice with a retryable classification and then succeeding runs to success in
exactly 3 invocations under `maxRetries = 3`; and an operation whose every
attempt fails with a retryable classification under `maxRetries = 1` fails
after exactly 2 invocations, propagating the very error raised by the second
invocation. -/
theorem c1_retry_ceiling_and_scenarios (α : Type) (ops : ℕ → Except JsError α)
    (init factor : ℚ) :
    (∀ maxR : ℕ, (retryModel ops maxR init factor).invocations ≤ maxR + 1) ∧
      (∀ e0 e1 v, ops 0 = .error e0 → isRetryableError e0 = true →
        ops 1 = .error e1 → isRetryableError e1 = true → ops 2 = .ok v →
        (retryModel ops 3 init factor).result = .ok v ∧
          (retryModel ops 3 init factor).invocations = 3) ∧
      ((∀ k, ∃ e, ops k = .error e ∧ isRetryableError e = true) →
        (retryModel ops 1 init factor).invocations = 2 ∧
          ∃ e1, ops 1 = .error e1 ∧ (retryModel ops 1 init factor).result = .error e1) := by
  refine ⟨?_, ?_, ?_⟩
  · intro maxR
    have := retryGo_invocations_le ops maxR factor maxR 0 init []
    rw [retryModel]
    omega
  · intro e0 e1 v h0 hr0 h1 hr1 h2
    rw [retryModel,
      retryGo_step_retry _ _ _ _ _ _ _ _ (by omega) h0 hr0 (by omega),
      retryGo_step_retry _ _ _ _ _ _ _ _ (by norm_num) h1 hr1 (by omega),
      retryGo_step_ok _ _ _ _ _ _ _ _ h2]
    exact ⟨rfl, rfl⟩
  · intro hall
    obtain ⟨e0, h0, hr0⟩ := hall 0
    obtain ⟨e1, h1, _⟩ := hall 1
    rw [retryModel,
      retryGo_step_retry _ _ _ _ _ _ _ _ (by omega) h0 hr0 (by omega)]
    rw [retryGo_step_fuelzero _ _ _ _ _ _ _ h1]
    exact ⟨rfl, e1, h1, rfl⟩

theorem c1_retry_ceiling_and_scenarios_witness :
    (retryModel opsTwoFailThenOk 3 1000 2).result = .ok 42 ∧
      (retryModel opsTwoFailThenOk 3 1000 2).invocations = 3 ∧
      (retryModel opsAlwaysFail 1 1000 2).invocations ≤ 1 + 1 ∧
      (retryModel opsAlwaysFail 1 1000 2).invocations = 2 ∧
      ∃ e1, opsAlwaysFail 1 = .error e1 ∧
        (retryModel opsAlwaysFail 1 1000 2).result = .error e1 :=
  have hb := (c1_retry_ceiling_and_scenarios ℕ opsTwoFailThenOk 1000 2).2.1
    sampleRetryableError sampleRetryableError 42 rfl (by decide) rfl (by decide) rfl
  have hc := (c1_retry_ceiling_and_scenarios ℕ opsAlwaysFail 1000 2).2.2
    (fun _ => ⟨sampleRetryableError, rfl, by decide⟩)
  have ha := (c1_retry_ceiling_and_scenarios ℕ opsAlwaysFail 1000 2).1 1
  ⟨hb.1, hb.2, ha, hc.1, hc.2⟩

/-- C2 counterexample: with `initialDelay = 1000` and `backoffFactor = 2`, a
first failure suggesting a 5-second delay is followed by a plainly transient
failure; the loop then waits 10000 ms — the suggested 5000 ms times the
factor — not a value of the exponential sequence started from the initial
delay (neither 1000·2 nor 1000·2·2): the backoff state is seeded by the used
server-suggested delay, contradicting the claimed delay rule. -/
theorem c2_counterexample :
    (retryModel opsDelayed 3 1000 2).delays = [5000, 10000] ∧
      (10000 : ℚ) ≠ 1000 * 2 * 2 ∧ (10000 : ℚ) ≠ 1000 * 2 := by
  have hc1 : customRetryDelayMs sampleDelayError = 5000 := by decide
  have hd1 : nextDelay sampleDelayError 1000 2 = 5000 := by
    rw [nextDelay, if_pos (by rw [hc1]; norm_num), hc1]
    norm_num
  have hd2 : nextDelay sampleRetryableError 5000 2 = 10000 := by
    rw [nextDelay, if_neg (by decide)]
    norm_num
  refine ⟨?_, by norm_num, by norm_num⟩
  rw [retryModel,
    retryGo_step_retry _ _ _ _ _ _ _ _ (by omega)
      (show opsDelayed 0 = .error sampleDelayError from rfl) (by decide) (by omega),
    hd1,
    retryGo_step_retry _ _ _ _ _ _ _ _ (by norm_num)
      (show opsDelayed (0 + 1) = .error sampleRetryableError from rfl) (by decide) (by omega),
    hd2,
    retryGo_step_ok _ _ _ _ _ _ _ _ (show opsDelayed (0 + 1 + 1) = .ok 7 from rfl)]
  simp

/-- C2 (amended): the retry delays follow a running-delay discipline: the
running delay starts at `initialDelay`; before each retry, the slept delay is
the server-suggested whole-second delay when that is positive and otherwise
the current running delay multiplied by `backoffFactor`; the slept delay then
becomes the running delay.  (A suggested delay of zero seconds is treated as
absent, and a suggested delay reseeds the base of all later backoff.) -/
theorem c2_delay_discipline (α : Type) (ops : ℕ → Except JsError α) (maxR : ℕ)
    (init factor : ℚ) :
    DelayChain ops factor 0 init (retryModel ops maxR init factor).delays := by
  obtain ⟨tail, htail, hchain⟩ := retryGo_delays_chain ops maxR factor maxR 0 init []
  rw [retryModel, htail]
  simpa using hchain

/-- C3 counterexample: with an operation that always fails fatally, the retry
loop terminates with that error, yet `detectLanguage` returns `null` to its
caller — the terminal failure is swallowed rather than propagated. -/
theorem c3_counterexample :
    detectLanguageModel opsFatal = none ∧
      (retryModel opsFatal API_MAX_RETRIES API_RETRY_INITIAL_DELAY_MS
          API_RETRY_BACKOFF_FACTOR).result = .error sampleFatalError := by
  constructor
  · rfl
  · rfl

/-- C3 (amended): every terminal failure of the retry loop carries exactly
the error object raised by the final invocation, unchanged; `translateText`
and `generateSpeech` (on non-blank text) re-throw it to their caller
unchanged; `detectLanguage`, however, catches it and returns `null`, so its
caller receives no error object. -/
theorem c3_terminal_error_propagation (ops : ℕ → Except JsError String) (e : JsError) :
    (∀ (α : Type) (ops2 : ℕ → Except JsError α) (maxR : ℕ) (init factor : ℚ),
      (retryModel ops2 maxR init factor).result = .error e →
      ops2 ((retryModel ops2 maxR init factor).invocations - 1) = .error e) ∧
      ((retryModel ops API_MAX_RETRIES API_RETRY_INITIAL_DELAY_MS
          API_RETRY_BACKOFF_FACTOR).result = .error e →
        translateTextModel ops = .error e ∧
          (∀ t : String, isBlank t = false → generateSpeechModel t ops = .error e) ∧
          detectLanguageModel ops = none) := by
  constructor
  · intro α ops2 maxR init factor h
    rw [retryModel] at h ⊢
    exact retryGo_error_is_last ops2 maxR factor maxR 0 init [] e h
  · intro h
    rcases hRR : retryModel ops API_MAX_RETRIES API_RETRY_INITIAL_DELAY_MS
        API_RETRY_BACKOFF_FACTOR with ⟨res, inv, dl⟩
    rw [hRR] at h
    simp only at h
    subst h
    refine ⟨?_, ?_, ?_⟩
    · rw [translateTextModel, hRR]
    · intro t ht
      rw [generateSpeechModel, ht, if_neg (by simp), hRR]
    · rw [detectLanguageModel, hRR]

theorem c3_terminal_error_propagation_witness :
    opsFatal ((retryModel opsFatal 10 1000 2).invocations - 1) = .error sampleFatalError ∧
      translateTextModel opsFatal = .error sampleFatalError ∧
      generateSpeechModel "hello" opsFatal = .error sampleFatalError ∧
      detectLanguageModel opsFatal = none :=
  have hmain := c3_terminal_error_propagation opsFatal sampleFatalError
  have h2 := hmain.2 (by rfl)
  ⟨hmain.1 String opsFatal 10 1000 2 (by rfl), h2.1, h2.2.1 "hello" (by decide), h2.2.2⟩

theorem bytesToInt16s_length : ∀ l : List ℕ, (bytesToInt16s l).length = l.length / 2
  | [] => rfl
  | [_] => by simp [bytesToInt16s]
  | lo :: hi :: rest => by
    rw [bytesToInt16s]
    simp only [List.length_cons, bytesToInt16s_length rest]
    omega

theorem bytesToInt16s_getD : ∀ (l : List ℕ) (k : ℕ), 2 * k + 1 < l.length →
    (bytesToInt16s l).getD k 0 = readInt16LE (l.getD (2 * k) 0) (l.getD (2 * k + 1) 0)
  | [], k, h => by simp at h
  | [_], k, h => by simp at h
  | lo :: hi :: rest, 0, h => by rw [bytesToInt16s]; rfl
  | lo :: hi :: rest, k + 1, h => by
    rw [bytesToInt16s]
    have h2 : 2 * k + 1 < rest.length := by
      simp only [List.length_cons] at h
      omega
    have e1 : 2 * (k + 1) = 2 * k + 1 + 1 := by omega
    rw [List.getD_cons_succ, bytesToInt16s_getD rest k h2, e1]
    rw [List.getD_cons_succ, List.getD_cons_succ, List.getD_cons_succ, List.getD_cons_succ]

/-- C8 counterexample: six bytes with channelCount 2 — a length that is not a
multiple of 2 × channelCount — do not make `decodeAudioData` fail: the
fractional frame count 1.5 is truncated by `createBuffer` and the call
succeeds, dropping the trailing sample. -/
theorem c8_counterexample :
    (6 : ℕ) % (2 * 2) ≠ 0 ∧ isOkE (decodeAudioData [0, 0, 0, 0, 0, 0] 8000 2) = true := by
  constructor
  · decide
  · decide

/-- C8 (amended): `decodeAudioData` fails with the spec's malformed-audio
error exactly when the byte length is odd (the `Int16Array` constructor), and
with a zero-frames error when `⌊(length/2) / channelCount⌋ = 0` (the
`createBuffer` rejection); on every other input it succeeds with
`frameCount = ⌊(length/2) / channelCount⌋` — truncating, not failing, when
the even length is not a multiple of 2 × channelCount — and each sample of
channel c at frame i is the little-endian signed 16-bit value at byte offset
2·(i·channelCount + c) divided by 32768.  (For channelCount = 1, the only
value the repository uses, the original claim's success half holds for every
non-empty even-length input.) -/
theorem c8_decode_characterization (bytes : List ℕ) (ch sr : ℕ) :
    (bytes.length % 2 ≠ 0 → decodeAudioData bytes sr ch = .error .malformedLength) ∧
      (bytes.length % 2 = 0 → bytes.length / 2 / ch = 0 →
        decodeAudioData bytes sr ch = .error .zeroFrames) ∧
      (bytes.length % 2 = 0 → bytes.length / 2 / ch ≠ 0 →
        ∃ b, decodeAudioData bytes sr ch = .ok b ∧
          b.sampleRate = sr ∧
          b.channels.length = ch ∧
          (∀ l ∈ b.channels, l.length = bytes.length / 2 / ch) ∧
          ∀ c i, c < ch → i < bytes.length / 2 / ch →
            (b.channels.getD c []).getD i 0 =
              ((readInt16LE (bytes.getD (2 * (i * ch + c)) 0)
                  (bytes.getD (2 * (i * ch + c) + 1) 0) : ℤ) : ℚ) / 32768) := by
  have hfc : (bytesToInt16s bytes).length / ch = bytes.length / 2 / ch := by
    rw [bytesToInt16s_length]
  refine ⟨?_, ?_, ?_⟩
  · intro hmod
    rw [decodeAudioData, if_pos hmod]
  · intro hmod hz
    rw [decodeAudioData, if_neg (by omega)]
    simp only [hfc]
    rw [if_pos hz]
  · intro hmod hnz
    rw [decodeAudioData, if_neg (by omega)]
    simp only [hfc]
    rw [if_neg hnz]
    refine ⟨_, rfl, rfl, by simp, by simp, ?_⟩
    intro c i hc hi
    rw [rangeMap_getD _ _ _ _ hc, rangeMap_getD _ _ _ _ hi]
    have hbound : 2 * (i * ch + c) + 1 < bytes.length := by
      have h1 : i * ch + c < (i + 1) * ch := by
        have hx : i * ch + c < i * ch + ch := by omega
        calc i * ch + c < i * ch + ch := hx
          _ = (i + 1) * ch := by ring
      have h2 : (i + 1) * ch ≤ (bytes.length / 2 / ch) * ch :=
        Nat.mul_le_mul_right ch (by omega)
      have h3 : (bytes.length / 2 / ch) * ch ≤ bytes.length / 2 :=
        Nat.div_mul_le_self _ _
      omega
    rw [bytesToInt16s_getD bytes _ hbound]

theorem c8_decode_characterization_witness :
    decodeAudioData [1, 2, 3] 8000 2 = .error .malformedLength ∧
      decodeAudioData [1, 2] 8000 2 = .error .zeroFrames ∧
      ∃ b, decodeAudioData [0, 128] 8000 1 = .ok b ∧
        b.sampleRate = 8000 ∧
        b.channels.length = 1 ∧
        (∀ l ∈ b.channels, l.length = [0, 128].length / 2 / 1) ∧
        ∀ c i, c < 1 → i < [0, 128].length / 2 / 1 →
          (b.channels.getD c []).getD i 0 =
            ((readInt16LE ([0, 128].getD (2 * (i * 1 + c)) 0)
                ([0, 128].getD (2 * (i * 1 + c) + 1) 0) : ℤ) : ℚ) / 32768 :=
  ⟨(c8_decode_characterization [1, 2, 3] 2 8000).1 (by decide),
    (c8_decode_characterization [1, 2] 2 8000).2.1 (by decide) (by decide),
    (c8_decode_characterization [0, 128] 1 8000).2.2 (by decide) (by decide)⟩
